import Mathlib

/-!
Shallow embedding of `validation.py` (EvaluationPackage2016): the validation
engine for person-identification submission and evidence files.  Rows are
records over strings and an explicit floating-point value type; the engine is
the `Validation` record holding the optional reference shot and video sets;
every check returns `Except ValidationError Unit`, mirroring the source's
raise-on-first-violation style.
-/

namespace EvaluationPackage

/-- Floating-point values as parsed into a dataset column: either a finite
numeric value or one of the non-finite IEEE values (`nan`, `inf`, `-inf`).
`np.isfinite` holds exactly on the `finite` case. -/
inductive FloatVal where
  | finite (q : Rat)
  | nan
  | posInf
  | negInf
deriving DecidableEq

/-- Translation of `np.isfinite` on a parsed value. -/
def FloatVal.isFinite : FloatVal → Bool
  | .finite _ => true
  | _ => false

/-- Translation of the IEEE comparison `x < 0.` (false on `nan`). -/
def FloatVal.isNeg : FloatVal → Bool
  | .finite q => decide (q < 0)
  | .negInf => true
  | _ => false

/-- Row of a submission file: `corpus_id video_id shot_id person_name confidence`. -/
structure SubmissionRow where
  corpus_id : String
  video_id : String
  shot_id : String
  person_name : String
  confidence : FloatVal
deriving DecidableEq

/-- Row of an evidence file: `person_name corpus_id video_id modality timestamp`. -/
structure EvidenceRow where
  person_name : String
  corpus_id : String
  video_id : String
  modality : String
  timestamp : FloatVal
deriving DecidableEq

/-- Validation errors raised by the engine (the `ValueError` messages of the
source, one constructor per message template, carrying the reported data). -/
inductive ValidationError where
  | invalidPersonName (person_name : String)
  | invalidShot (corpus_id video_id shot_id : String)
  | incorrectConfidence (line : Nat)
  | invalidVideo (corpus_id video_id : String)
  | incorrectTimestamp (line : Nat)
  | negativeTimestamp (line : Nat)
  | duplicatePersonName (person_name : String)
  | extraPersonName (person_name : String)
  | missingPersonName (person_name : String)
  | incorrectModality (modality : String)
deriving DecidableEq

/-- The engine state built by `Validation.__init__`: the reference shot set
and reference video set, fixed at construction.  `none` means the
corresponding restriction was not configured, so its check is skipped.
Sets are modelled as lists with membership. -/
structure Validation where
  shots_ : Option (List (String × String × String))
  videos_ : Option (List (String × String))
deriving DecidableEq

/-- Decidable equality of check outcomes, for evaluating the engine on
concrete inputs. -/
instance exceptDecEq {ε α : Type} [DecidableEq ε] [DecidableEq α] :
    DecidableEq (Except ε α) := fun a b =>
  match a, b with
  | .ok x, .ok y =>
    if h : x = y then isTrue (by rw [h])
    else isFalse (fun hc => h (by injection hc))
  | .error e1, .error e2 =>
    if h : e1 = e2 then isTrue (by rw [h])
    else isFalse (fun hc => h (by injection hc))
  | .ok _, .error _ => isFalse (fun hc => Except.noConfusion hc)
  | .error _, .ok _ => isFalse (fun hc => Except.noConfusion hc)

/-- Index (0-based) of the first element satisfying `p`: translation of
`np.where(p)[0]` followed by taking element `0`. -/
def firstIdxP {α : Type} (p : α → Bool) : List α → Option Nat
  | [] => none
  | x :: rest => if p x then some 0 else (firstIdxP p rest).map (· + 1)

/-- Membership in `ALLOWED_CHARACTERS = set(string.ascii_lowercase + '_')`. -/
def allowedChar (c : Char) : Bool := ('a' ≤ c && c ≤ 'z') || c == '_'

/-- Translation of `set(person_name).issubset(ALLOWED_CHARACTERS)`. -/
def allowedName (person_name : String) : Bool :=
  person_name.toList.all allowedChar

/-- Translation of `Validation.__submission_person_names`: raise on a person
name containing a character outside the allowed alphabet.  The source pops
from an unordered set, so which offender it reports is unspecified; this
determinization reports the first offender in file order. -/
def submissionPersonNames (submission : List SubmissionRow) :
    Except ValidationError Unit :=
  match (submission.map (·.person_name)).find? (fun n => !allowedName n) with
  | some n => .error (.invalidPersonName n)
  | none => .ok ()

/-- Key of a submission row in the reference shot set. -/
def tripleOf (r : SubmissionRow) : String × String × String :=
  (r.corpus_id, r.video_id, r.shot_id)

/-- Translation of `Validation.__submission_shots`: raise on a referenced shot
absent from the reference shot set (first such in file order, standing for the
source's unordered `invalid_shots.pop()`). -/
def submissionShots (shots_ : List (String × String × String))
    (submission : List SubmissionRow) : Except ValidationError Unit :=
  match (submission.map tripleOf).find? (fun t => !decide (t ∈ shots_)) with
  | some (c, v, s) => .error (.invalidShot c v s)
  | none => .ok ()

/-- Translation of `Validation.__submission_confidence`: raise on the first
row (1-indexed) whose confidence is not finite. -/
def submissionConfidence (submission : List SubmissionRow) :
    Except ValidationError Unit :=
  match firstIdxP (fun r => !r.confidence.isFinite) submission with
  | some i => .error (.incorrectConfidence (i + 1))
  | none => .ok ()

/-- Key of an evidence row in the reference video set. -/
def pairOf (r : EvidenceRow) : String × String := (r.corpus_id, r.video_id)

/-- Translation of `Validation.__evidence_videos`: raise on a referenced video
absent from the reference video set. -/
def evidenceVideos (videos_ : List (String × String))
    (evidence : List EvidenceRow) : Except ValidationError Unit :=
  match (evidence.map pairOf).find? (fun p => !decide (p ∈ videos_)) with
  | some (c, v) => .error (.invalidVideo c v)
  | none => .ok ()

/-- Translation of `evidence.duplicated('person_name')` followed by `pop`:
some name occurring in more than one row, `none` when all are distinct. -/
def firstDuplicate : List String → Option String
  | [] => none
  | n :: rest => if n ∈ rest then some n else firstDuplicate rest

/-- Translation of `Validation.__evidence_person_names`: duplicated names
first, then names extra to the submission, then names missing from the
evidence. -/
def evidencePersonNames (submission : List SubmissionRow)
    (evidence : List EvidenceRow) : Except ValidationError Unit :=
  match firstDuplicate (evidence.map (·.person_name)) with
  | some n => .error (.duplicatePersonName n)
  | none =>
    match (evidence.map (·.person_name)).find?
        (fun n => !decide (n ∈ submission.map (·.person_name))) with
    | some n => .error (.extraPersonName n)
    | none =>
      match (submission.map (·.person_name)).find?
          (fun n => !decide (n ∈ evidence.map (·.person_name))) with
      | some n => .error (.missingPersonName n)
      | none => .ok ()

/-- Translation of `Validation.__evidence_modalities`: the distinct modality
values must be a subset of the two allowed literals. -/
def evidenceModalities (evidence : List EvidenceRow) :
    Except ValidationError Unit :=
  match (evidence.map (·.modality)).find?
      (fun m => !(m == "written" || m == "pronounced")) with
  | some m => .error (.incorrectModality m)
  | none => .ok ()

/-- Translation of `Validation.__evidence_timestamps`: non-finite first, then
negative, each reporting the first offending 1-indexed line. -/
def evidenceTimestamps (evidence : List EvidenceRow) :
    Except ValidationError Unit :=
  match firstIdxP (fun r => !r.timestamp.isFinite) evidence with
  | some i => .error (.incorrectTimestamp (i + 1))
  | none =>
    match firstIdxP (fun r => r.timestamp.isNeg) evidence with
    | some i => .error (.negativeTimestamp (i + 1))
    | none => .ok ()

/-- Translation of `Validation.__call__`: the datasets arrive already parsed
(the row parser is an external collaborator per the spec).  Checks run in the
source's fixed order; the first raised error propagates; on success the call
returns `True`. -/
def Validation.validate (v : Validation) (submission : List SubmissionRow)
    (evidence : Option (List EvidenceRow)) : Except ValidationError Bool :=
  match submissionPersonNames submission with
  | .error e => .error e
  | .ok _ =>
    match (match v.shots_ with
           | some shots => submissionShots shots submission
           | none => .ok ()) with
    | .error e => .error e
    | .ok _ =>
      match submissionConfidence submission with
      | .error e => .error e
      | .ok _ =>
        match evidence with
        | none => .ok true
        | some ev =>
          match (match v.videos_ with
                 | some vids => evidenceVideos vids ev
                 | none => .ok ()) with
          | .error e => .error e
          | .ok _ =>
            match evidenceTimestamps ev with
            | .error e => .error e
            | .ok _ =>
              match evidencePersonNames submission ev with
              | .error e => .error e
              | .ok _ =>
                match evidenceModalities ev with
                | .error e => .error e
                | .ok _ => .ok true

/-- Specification-side definition (from spec section 4.5 and sections 4.3,
4.4): the list of applicable checks in the fixed order stated by the spec. -/
def specCheckSequence (v : Validation) (submission : List SubmissionRow)
    (evidence : Option (List EvidenceRow)) :
    List (Except ValidationError Unit) :=
  [submissionPersonNames submission]
  ++ (match v.shots_ with
      | some shots => [submissionShots shots submission]
      | none => [])
  ++ [submissionConfidence submission]
  ++ (match evidence with
      | none => []
      | some ev =>
        (match v.videos_ with
         | some vids => [evidenceVideos vids ev]
         | none => [])
        ++ [evidenceTimestamps ev,
            evidencePersonNames submission ev,
            evidenceModalities ev])

/-- Specification-side runner: run checks in order, stop at the first error,
return `true` when all pass (spec section 4.5, strict fail-fast). -/
def specRun : List (Except ValidationError Unit) → Except ValidationError Bool
  | [] => .ok true
  | .ok _ :: rest => specRun rest
  | .error e :: _ => .error e

/-- Error of the first violated check in a sequence, if any. -/
def firstViolation : List (Except ValidationError Unit) → Option ValidationError
  | [] => none
  | .ok _ :: rest => firstViolation rest
  | .error e :: _ => some e

/-- State-passing form of `Validation.__call__`: the method only reads
`shots_` and `videos_` and performs no attribute assignment, so the engine
state threads through unchanged. -/
def Validation.callS (v : Validation) (submission : List SubmissionRow)
    (evidence : Option (List EvidenceRow)) :
    Except ValidationError Bool × Validation :=
  (v.validate submission evidence, v)

/-- Run a sequence of validate calls against one engine instance, threading
the engine state from call to call and collecting each call's outcome. -/
def runCalls (v : Validation) :
    List (List SubmissionRow × Option (List EvidenceRow)) →
    List (Except ValidationError Bool) × Validation
  | [] => ([], v)
  | (s, e) :: rest =>
    match v.callS s e with
    | (r, v1) =>
      match runCalls v1 rest with
      | (rs, v2) => (r :: rs, v2)

/-! Helper lemmas characterizing the small recursive functions. -/

theorem firstIdxP_none_iff {α : Type} (p : α → Bool) (l : List α) :
    firstIdxP p l = none ↔ ∀ x ∈ l, p x = false := by
  induction l with
  | nil => simp [firstIdxP]
  | cons x rest ih =>
    by_cases hx : p x = true
    · simp [firstIdxP, hx]
    · simp only [Bool.not_eq_true] at hx
      simp [firstIdxP, hx, ih]

theorem firstIdxP_some_iff {α : Type} (p : α → Bool) (l : List α) (i : Nat) :
    firstIdxP p l = some i ↔
      (∃ x, l.get? i = some x ∧ p x = true) ∧
        ∀ j, j < i → ∀ y, l.get? j = some y → p y = false := by
  induction l generalizing i with
  | nil => simp [firstIdxP]
  | cons x rest ih =>
    by_cases hx : p x = true
    · simp only [firstIdxP, hx, if_pos]
      constructor
      · rintro h
        injection h with h
        subst h
        exact ⟨⟨x, rfl, hx⟩, fun j hj => by omega⟩
      · rintro ⟨⟨y, hy, hpy⟩, hbefore⟩
        cases i with
        | zero => rfl
        | succ k =>
          have := hbefore 0 (Nat.succ_pos k) x rfl
          rw [hx] at this
          cases this
    · simp only [Bool.not_eq_true] at hx
      simp only [firstIdxP, hx, if_neg Bool.false_ne_true, Option.map_eq_some']
      constructor
      · rintro ⟨k, hk, rfl⟩
        obtain ⟨⟨y, hy, hpy⟩, hbefore⟩ := (ih k).1 hk
        refine ⟨⟨y, by simpa using hy, hpy⟩, ?_⟩
        intro j hj z hz
        cases j with
        | zero =>
          simp only [List.get?] at hz
          injection hz with hz
          subst hz; exact hx
        | succ m =>
          simp only [List.get?] at hz
          exact hbefore m (by omega) z hz
      · rintro ⟨⟨y, hy, hpy⟩, hbefore⟩
        cases i with
        | zero =>
          simp only [List.get?] at hy
          injection hy with hy
          subst hy
          rw [hx] at hpy
          cases hpy
        | succ k =>
          refine ⟨k, (ih k).2 ⟨⟨y, by simpa using hy, hpy⟩, ?_⟩, rfl⟩
          intro j hj z hz
          exact hbefore (j + 1) (by omega) z (by simpa using hz)

theorem firstDuplicate_none_iff (l : List String) :
    firstDuplicate l = none ↔ l.Nodup := by
  induction l with
  | nil => simp [firstDuplicate]
  | cons n rest ih =>
    by_cases hn : n ∈ rest
    · simp [firstDuplicate, hn]
    · simp [firstDuplicate, hn, ih]

theorem firstDuplicate_some_count {l : List String} {n : String}
    (h : firstDuplicate l = some n) : 2 ≤ l.count n := by
  induction l with
  | nil => simp [firstDuplicate] at h
  | cons m rest ih =>
    by_cases hm : m ∈ rest
    · simp only [firstDuplicate, if_pos hm] at h
      injection h with h
      rw [← h]
      have : 0 < rest.count m := List.count_pos_iff.2 hm
      simp only [List.count_cons_self]
      omega
    · simp only [firstDuplicate, if_neg hm] at h
      have h2 := ih h
      by_cases hne : n = m
      · subst hne
        simp only [List.count_cons_self]
        omega
      · rw [List.count_cons_of_ne hne]
        exact h2

theorem specRun_ok_iff (l : List (Except ValidationError Unit)) (b : Bool) :
    specRun l = .ok b ↔ b = true ∧ ∀ c ∈ l, c = .ok () := by
  induction l with
  | nil =>
    simp only [specRun, List.not_mem_nil]
    constructor
    · rintro h; injection h with h; exact ⟨h.symm, by simp⟩
    · rintro ⟨rfl, _⟩; rfl
  | cons c rest ih =>
    cases c with
    | ok u =>
      cases u
      simp [specRun, ih]
    | error e => simp [specRun]

theorem specRun_error_iff (l : List (Except ValidationError Unit))
    (e : ValidationError) :
    specRun l = .error e ↔ firstViolation l = some e := by
  induction l with
  | nil => simp [specRun, firstViolation]
  | cons c rest ih =>
    cases c with
    | ok u => simp [specRun, firstViolation, ih]
    | error e0 => simp [specRun, firstViolation]

theorem validate_eq_specRun (v : Validation) (sub : List SubmissionRow)
    (ev : Option (List EvidenceRow)) :
    v.validate sub ev = specRun (specCheckSequence v sub ev) := by
  unfold Validation.validate specCheckSequence
  cases hpn : submissionPersonNames sub with
  | error e => simp_all [specRun]
  | ok u =>
    cases u
    cases hs : v.shots_ with
    | some shots =>
      cases hss : submissionShots shots sub with
      | error e => simp_all [specRun]
      | ok u =>
        cases u
        cases hc : submissionConfidence sub with
        | error e => simp_all [specRun]
        | ok u =>
          cases u
          cases ev with
          | none => simp_all [specRun]
          | some evd =>
            cases hv : v.videos_ with
            | some vids =>
              cases hvv : evidenceVideos vids evd with
              | error e => simp_all [specRun]
              | ok u =>
                cases u
                cases hts : evidenceTimestamps evd with
                | error e => simp_all [specRun]
                | ok u =>
                  cases u
                  cases hen : evidencePersonNames sub evd with
                  | error e => simp_all [specRun]
                  | ok u =>
                    cases u
                    cases hm : evidenceModalities evd with
                    | error e => simp_all [specRun]
                    | ok u => cases u; simp_all [specRun]
            | none =>
              cases hts : evidenceTimestamps evd with
              | error e => simp_all [specRun]
              | ok u =>
                cases u
                cases hen : evidencePersonNames sub evd with
                | error e => simp_all [specRun]
                | ok u =>
                  cases u
                  cases hm : evidenceModalities evd with
                  | error e => simp_all [specRun]
                  | ok u => cases u; simp_all [specRun]
    | none =>
      cases hc : submissionConfidence sub with
      | error e => simp_all [specRun]
      | ok u =>
        cases u
        cases ev with
        | none => simp_all [specRun]
        | some evd =>
          cases hv : v.videos_ with
          | some vids =>
            cases hvv : evidenceVideos vids evd with
            | error e => simp_all [specRun]
            | ok u =>
              cases u
              cases hts : evidenceTimestamps evd with
              | error e => simp_all [specRun]
              | ok u =>
                cases u
                cases hen : evidencePersonNames sub evd with
                | error e => simp_all [specRun]
                | ok u =>
                  cases u
                  cases hm : evidenceModalities evd with
                  | error e => simp_all [specRun]
                  | ok u => cases u; simp_all [specRun]
          | none =>
            cases hts : evidenceTimestamps evd with
            | error e => simp_all [specRun]
            | ok u =>
              cases u
              cases hen : evidencePersonNames sub evd with
              | error e => simp_all [specRun]
              | ok u =>
                cases u
                cases hm : evidenceModalities evd with
                | error e => simp_all [specRun]
                | ok u => cases u; simp_all [specRun]

/-! Characterizations of the individual checks. -/

theorem find?_some_mem {α : Type} (p : α → Bool) (l : List α) (a : α)
    (h : l.find? p = some a) : a ∈ l ∧ p a = true := by
  induction l with
  | nil => cases h
  | cons x rest ih =>
    by_cases hx : p x = true
    · rw [List.find?_cons_of_pos _ hx] at h
      injection h with h
      subst h
      exact ⟨List.mem_cons_self x rest, hx⟩
    · rw [List.find?_cons_of_neg _ hx] at h
      obtain ⟨hm, hp⟩ := ih h
      exact ⟨List.mem_cons_of_mem x hm, hp⟩

theorem submissionPersonNames_ok_iff (submission : List SubmissionRow) :
    submissionPersonNames submission = .ok () ↔
      ∀ r ∈ submission, allowedName r.person_name = true := by
  unfold submissionPersonNames
  cases hf : (submission.map (·.person_name)).find? (fun n => !allowedName n) with
  | some n =>
    obtain ⟨h2, h1⟩ := find?_some_mem _ _ _ hf
    obtain ⟨r, hr, hrn⟩ := List.mem_map.1 h2
    simp only [Bool.not_eq_true'] at h1
    constructor
    · intro h; cases h
    · intro h
      have hx := h r hr
      rw [hrn] at hx
      rw [hx] at h1
      cases h1
  | none =>
    have hall := List.find?_eq_none.1 hf
    constructor
    · intro _ r hr
      have hx := hall r.person_name (List.mem_map.2 ⟨r, hr, rfl⟩)
      simpa using hx
    · intro _; rfl

theorem submissionPersonNames_error (submission : List SubmissionRow)
    (e : ValidationError) (h : submissionPersonNames submission = .error e) :
    ∃ n, e = .invalidPersonName n ∧ allowedName n = false ∧
      ∃ r ∈ submission, r.person_name = n := by
  unfold submissionPersonNames at h
  cases hf : (submission.map (·.person_name)).find? (fun n => !allowedName n) with
  | some n =>
    rw [hf] at h
    injection h with h
    obtain ⟨h2, h1⟩ := find?_some_mem _ _ _ hf
    obtain ⟨r, hr, hrn⟩ := List.mem_map.1 h2
    simp only [Bool.not_eq_true'] at h1
    exact ⟨n, h.symm, h1, r, hr, hrn⟩
  | none => rw [hf] at h; cases h

theorem submissionPersonNames_error_of (submission : List SubmissionRow)
    (h : ∃ r ∈ submission, allowedName r.person_name = false) :
    ∃ n, submissionPersonNames submission = .error (.invalidPersonName n) ∧
      allowedName n = false ∧ ∃ r ∈ submission, r.person_name = n := by
  cases hc : submissionPersonNames submission with
  | ok u =>
    cases u
    obtain ⟨r, hr, hbad⟩ := h
    have := (submissionPersonNames_ok_iff submission).1 hc r hr
    rw [this] at hbad; cases hbad
  | error e =>
    obtain ⟨n, rfl, hn, hr⟩ := submissionPersonNames_error submission e hc
    exact ⟨n, rfl, hn, hr⟩

theorem submissionShots_ok_iff (shots_ : List (String × String × String))
    (submission : List SubmissionRow) :
    submissionShots shots_ submission = .ok () ↔
      ∀ r ∈ submission, tripleOf r ∈ shots_ := by
  unfold submissionShots
  cases hf : (submission.map tripleOf).find? (fun t => !decide (t ∈ shots_)) with
  | some t =>
    obtain ⟨c, v, s⟩ := t
    obtain ⟨h2, h1⟩ := find?_some_mem _ _ _ hf
    obtain ⟨r, hr, hrt⟩ := List.mem_map.1 h2
    simp only [Bool.not_eq_true', decide_eq_false_iff_not] at h1
    constructor
    · intro h; cases h
    · intro h
      have hx := h r hr
      rw [hrt] at hx
      exact absurd hx h1
  | none =>
    have hall := List.find?_eq_none.1 hf
    constructor
    · intro _ r hr
      have hx := hall (tripleOf r) (List.mem_map.2 ⟨r, hr, rfl⟩)
      simpa using hx
    · intro _; rfl

theorem submissionShots_error (shots_ : List (String × String × String))
    (submission : List SubmissionRow) (e : ValidationError)
    (h : submissionShots shots_ submission = .error e) :
    ∃ c v s, e = .invalidShot c v s ∧
      (c, v, s) ∈ submission.map tripleOf ∧ (c, v, s) ∉ shots_ := by
  unfold submissionShots at h
  cases hf : (submission.map tripleOf).find? (fun t => !decide (t ∈ shots_)) with
  | some t =>
    obtain ⟨c, v, s⟩ := t
    rw [hf] at h
    injection h with h
    obtain ⟨h2, h1⟩ := find?_some_mem _ _ _ hf
    simp only [Bool.not_eq_true', decide_eq_false_iff_not] at h1
    exact ⟨c, v, s, h.symm, h2, h1⟩
  | none => rw [hf] at h; cases h

theorem evidenceVideos_ok_iff (videos_ : List (String × String))
    (evidence : List EvidenceRow) :
    evidenceVideos videos_ evidence = .ok () ↔
      ∀ r ∈ evidence, pairOf r ∈ videos_ := by
  unfold evidenceVideos
  cases hf : (evidence.map pairOf).find? (fun p => !decide (p ∈ videos_)) with
  | some t =>
    obtain ⟨c, v⟩ := t
    obtain ⟨h2, h1⟩ := find?_some_mem _ _ _ hf
    obtain ⟨r, hr, hrt⟩ := List.mem_map.1 h2
    simp only [Bool.not_eq_true', decide_eq_false_iff_not] at h1
    constructor
    · intro h; cases h
    · intro h
      have hx := h r hr
      rw [hrt] at hx
      exact absurd hx h1
  | none =>
    have hall := List.find?_eq_none.1 hf
    constructor
    · intro _ r hr
      have hx := hall (pairOf r) (List.mem_map.2 ⟨r, hr, rfl⟩)
      simpa using hx
    · intro _; rfl

theorem evidenceVideos_error (videos_ : List (String × String))
    (evidence : List EvidenceRow) (e : ValidationError)
    (h : evidenceVideos videos_ evidence = .error e) :
    ∃ c v, e = .invalidVideo c v ∧
      (c, v) ∈ evidence.map pairOf ∧ (c, v) ∉ videos_ := by
  unfold evidenceVideos at h
  cases hf : (evidence.map pairOf).find? (fun p => !decide (p ∈ videos_)) with
  | some t =>
    obtain ⟨c, v⟩ := t
    rw [hf] at h
    injection h with h
    obtain ⟨h2, h1⟩ := find?_some_mem _ _ _ hf
    simp only [Bool.not_eq_true', decide_eq_false_iff_not] at h1
    exact ⟨c, v, h.symm, h2, h1⟩
  | none => rw [hf] at h; cases h

theorem evidenceModalities_ok_iff (evidence : List EvidenceRow) :
    evidenceModalities evidence = .ok () ↔
      ∀ r ∈ evidence, r.modality = "written" ∨ r.modality = "pronounced" := by
  unfold evidenceModalities
  cases hf : (evidence.map (·.modality)).find?
      (fun m => !(m == "written" || m == "pronounced")) with
  | some m =>
    obtain ⟨h2, h1⟩ := find?_some_mem _ _ _ hf
    obtain ⟨r, hr, hrm⟩ := List.mem_map.1 h2
    simp only [Bool.not_eq_true', Bool.or_eq_false_iff, beq_eq_false_iff_ne,
      ne_eq] at h1
    constructor
    · intro h; cases h
    · intro h
      have hx := h r hr
      rw [hrm] at hx
      rcases hx with hx | hx
      · exact absurd hx h1.1
      · exact absurd hx h1.2
  | none =>
    have hall := List.find?_eq_none.1 hf
    constructor
    · intro _ r hr
      have hx := hall r.modality (List.mem_map.2 ⟨r, hr, rfl⟩)
      simp only [Bool.not_eq_true', Bool.or_eq_false_iff, beq_eq_false_iff_ne,
        ne_eq, not_and, not_not] at hx
      by_cases hw : r.modality = "written"
      · exact Or.inl hw
      · exact Or.inr (hx hw)
    · intro _; rfl

theorem evidenceModalities_error (evidence : List EvidenceRow)
    (e : ValidationError) (h : evidenceModalities evidence = .error e) :
    ∃ m, e = .incorrectModality m ∧ (∃ r ∈ evidence, r.modality = m) ∧
      m ≠ "written" ∧ m ≠ "pronounced" := by
  unfold evidenceModalities at h
  cases hf : (evidence.map (·.modality)).find?
      (fun m => !(m == "written" || m == "pronounced")) with
  | some m =>
    rw [hf] at h
    injection h with h
    obtain ⟨h2, h1⟩ := find?_some_mem _ _ _ hf
    obtain ⟨r, hr, hrm⟩ := List.mem_map.1 h2
    simp only [Bool.not_eq_true', Bool.or_eq_false_iff, beq_eq_false_iff_ne,
      ne_eq] at h1
    exact ⟨m, h.symm, ⟨r, hr, hrm⟩, h1.1, h1.2⟩
  | none => rw [hf] at h; cases h

theorem submissionConfidence_ok_iff (submission : List SubmissionRow) :
    submissionConfidence submission = .ok () ↔
      ∀ r ∈ submission, r.confidence.isFinite = true := by
  unfold submissionConfidence
  cases hf : firstIdxP (fun r => !r.confidence.isFinite) submission with
  | some i =>
    obtain ⟨⟨r, hri, hrp⟩, _⟩ := (firstIdxP_some_iff _ _ _).1 hf
    simp only [Bool.not_eq_true'] at hrp
    constructor
    · intro h; cases h
    · intro h
      have := h r (List.get?_mem hri)
      rw [this] at hrp; cases hrp
  | none =>
    have hall := (firstIdxP_none_iff _ _).1 hf
    constructor
    · intro _ r hr
      have hb := hall r hr
      revert hb
      cases r.confidence.isFinite <;> simp
    · intro _; rfl

theorem submissionConfidence_error_at (submission : List SubmissionRow)
    (i : Nat)
    (h : firstIdxP (fun r => !r.confidence.isFinite) submission = some i) :
    submissionConfidence submission = .error (.incorrectConfidence (i + 1)) := by
  unfold submissionConfidence
  rw [h]

theorem evidenceTimestamps_ok_iff (evidence : List EvidenceRow) :
    evidenceTimestamps evidence = .ok () ↔
      ∀ r ∈ evidence, r.timestamp.isFinite = true ∧ r.timestamp.isNeg = false := by
  unfold evidenceTimestamps
  cases hf : firstIdxP (fun r => !r.timestamp.isFinite) evidence with
  | some i =>
    obtain ⟨⟨r, hri, hrp⟩, _⟩ := (firstIdxP_some_iff _ _ _).1 hf
    simp only [Bool.not_eq_true'] at hrp
    constructor
    · intro h; cases h
    · intro h
      have := (h r (List.get?_mem hri)).1
      rw [this] at hrp; cases hrp
  | none =>
    have hfin := (firstIdxP_none_iff _ _).1 hf
    cases hg : firstIdxP (fun r => r.timestamp.isNeg) evidence with
    | some i =>
      obtain ⟨⟨r, hri, hrp⟩, _⟩ := (firstIdxP_some_iff _ _ _).1 hg
      constructor
      · intro h; cases h
      · intro h
        have := (h r (List.get?_mem hri)).2
        rw [this] at hrp; cases hrp
    | none =>
      have hneg := (firstIdxP_none_iff _ _).1 hg
      constructor
      · intro _ r hr
        refine ⟨?_, hneg r hr⟩
        have hb := hfin r hr
        revert hb
        cases r.timestamp.isFinite <;> simp
      · intro _; rfl

theorem evidenceTimestamps_nonfinite_at (evidence : List EvidenceRow) (i : Nat)
    (h : firstIdxP (fun r => !r.timestamp.isFinite) evidence = some i) :
    evidenceTimestamps evidence = .error (.incorrectTimestamp (i + 1)) := by
  unfold evidenceTimestamps
  rw [h]

theorem evidenceTimestamps_negative_at (evidence : List EvidenceRow) (i : Nat)
    (hfin : ∀ r ∈ evidence, r.timestamp.isFinite = true)
    (h : firstIdxP (fun r => r.timestamp.isNeg) evidence = some i) :
    evidenceTimestamps evidence = .error (.negativeTimestamp (i + 1)) := by
  unfold evidenceTimestamps
  have hnone : firstIdxP (fun r => !r.timestamp.isFinite) evidence = none := by
    rw [firstIdxP_none_iff]
    intro r hr
    simp [hfin r hr]
  rw [hnone, h]

theorem not_bnot_decide {p : Prop} [Decidable p] (h : ¬((!decide p) = true)) :
    p := by
  by_cases hp : p
  · exact hp
  · simp [hp] at h

theorem get?_mem_take {α : Type} {l : List α} {i j : Nat} {y : α}
    (hj : j < i) (hy : l.get? j = some y) : y ∈ l.take i := by
  have h : (l.take i).get? j = some y := by
    rw [List.get?_take hj]
    exact hy
  exact List.get?_mem h

theorem firstDuplicate_isSome_of_not_nodup {l : List String}
    (h : ¬ l.Nodup) : ∃ n, firstDuplicate l = some n := by
  cases hf : firstDuplicate l with
  | none => exact absurd ((firstDuplicate_none_iff l).1 hf) h
  | some n => exact ⟨n, rfl⟩

theorem evidencePersonNames_ok_iff (submission : List SubmissionRow)
    (evidence : List EvidenceRow) :
    evidencePersonNames submission evidence = .ok () ↔
      (evidence.map (·.person_name)).Nodup ∧
      ∀ n, n ∈ evidence.map (·.person_name) ↔
        n ∈ submission.map (·.person_name) := by
  unfold evidencePersonNames
  cases hd : firstDuplicate (evidence.map (·.person_name)) with
  | some n =>
    constructor
    · intro h; cases h
    · rintro ⟨hnd, _⟩
      rw [← firstDuplicate_none_iff] at hnd
      rw [hd] at hnd
      cases hnd
  | none =>
    have hnd := (firstDuplicate_none_iff _).1 hd
    cases he : (evidence.map (·.person_name)).find?
        (fun n => !decide (n ∈ submission.map (·.person_name))) with
    | some n =>
      obtain ⟨hmem, hp⟩ := find?_some_mem _ _ _ he
      simp only [Bool.not_eq_true', decide_eq_false_iff_not] at hp
      constructor
      · intro h; cases h
      · rintro ⟨_, hiff⟩
        exact absurd ((hiff n).1 hmem) hp
    | none =>
      have hsub := List.find?_eq_none.1 he
      cases hm : (submission.map (·.person_name)).find?
          (fun n => !decide (n ∈ evidence.map (·.person_name))) with
      | some n =>
        obtain ⟨hmem, hp⟩ := find?_some_mem _ _ _ hm
        simp only [Bool.not_eq_true', decide_eq_false_iff_not] at hp
        constructor
        · intro h; cases h
        · rintro ⟨_, hiff⟩
          exact absurd ((hiff n).2 hmem) hp
      | none =>
        have hsup := List.find?_eq_none.1 hm
        constructor
        · intro _
          refine ⟨hnd, fun n => ⟨fun hn => ?_, fun hn => ?_⟩⟩
          · exact not_bnot_decide (hsub n hn)
          · exact not_bnot_decide (hsup n hn)
        · intro _; rfl

theorem evidencePersonNames_dup_of (submission : List SubmissionRow)
    (evidence : List EvidenceRow)
    (h : ¬ (evidence.map (·.person_name)).Nodup) :
    ∃ n, evidencePersonNames submission evidence
        = .error (.duplicatePersonName n) ∧
      2 ≤ (evidence.map (·.person_name)).count n := by
  obtain ⟨n, hn⟩ := firstDuplicate_isSome_of_not_nodup h
  refine ⟨n, ?_, firstDuplicate_some_count hn⟩
  unfold evidencePersonNames
  rw [hn]

theorem evidencePersonNames_extra_of (submission : List SubmissionRow)
    (evidence : List EvidenceRow)
    (hnd : (evidence.map (·.person_name)).Nodup)
    (h : ∃ n ∈ evidence.map (·.person_name),
      n ∉ submission.map (·.person_name)) :
    ∃ n, evidencePersonNames submission evidence
        = .error (.extraPersonName n) ∧
      n ∈ evidence.map (·.person_name) ∧
      n ∉ submission.map (·.person_name) := by
  unfold evidencePersonNames
  rw [(firstDuplicate_none_iff _).2 hnd]
  cases he : (evidence.map (·.person_name)).find?
      (fun n => !decide (n ∈ submission.map (·.person_name))) with
  | none =>
    obtain ⟨n, hmem, hnot⟩ := h
    exact absurd (not_bnot_decide (List.find?_eq_none.1 he n hmem)) hnot
  | some n =>
    obtain ⟨hmem, hp⟩ := find?_some_mem _ _ _ he
    simp only [Bool.not_eq_true', decide_eq_false_iff_not] at hp
    exact ⟨n, rfl, hmem, hp⟩

theorem evidencePersonNames_missing_of (submission : List SubmissionRow)
    (evidence : List EvidenceRow)
    (hnd : (evidence.map (·.person_name)).Nodup)
    (hext : ∀ n ∈ evidence.map (·.person_name),
      n ∈ submission.map (·.person_name))
    (h : ∃ n ∈ submission.map (·.person_name),
      n ∉ evidence.map (·.person_name)) :
    ∃ n, evidencePersonNames submission evidence
        = .error (.missingPersonName n) ∧
      n ∈ submission.map (·.person_name) ∧
      n ∉ evidence.map (·.person_name) := by
  unfold evidencePersonNames
  rw [(firstDuplicate_none_iff _).2 hnd]
  have he : (evidence.map (·.person_name)).find?
      (fun n => !decide (n ∈ submission.map (·.person_name))) = none := by
    rw [List.find?_eq_none]
    intro n hn
    simp [hext n hn]
  rw [he]
  cases hm : (submission.map (·.person_name)).find?
      (fun n => !decide (n ∈ evidence.map (·.person_name))) with
  | none =>
    obtain ⟨n, hmem, hnot⟩ := h
    exact absurd (not_bnot_decide (List.find?_eq_none.1 hm n hmem)) hnot
  | some n =>
    obtain ⟨hmem, hp⟩ := find?_some_mem _ _ _ hm
    simp only [Bool.not_eq_true', decide_eq_false_iff_not] at hp
    exact ⟨n, rfl, hmem, hp⟩

/-! Error shapes: which constructor each individual check can raise. -/

theorem submissionConfidence_error_shape (submission : List SubmissionRow)
    (e : ValidationError) (h : submissionConfidence submission = .error e) :
    ∃ i, e = .incorrectConfidence i := by
  unfold submissionConfidence at h
  cases hf : firstIdxP (fun r => !r.confidence.isFinite) submission with
  | some i => rw [hf] at h; injection h with h; exact ⟨i + 1, h.symm⟩
  | none => rw [hf] at h; cases h

theorem evidenceTimestamps_error_shape (evidence : List EvidenceRow)
    (e : ValidationError) (h : evidenceTimestamps evidence = .error e) :
    ∃ i, e = .incorrectTimestamp i ∨ e = .negativeTimestamp i := by
  unfold evidenceTimestamps at h
  cases hf : firstIdxP (fun r => !r.timestamp.isFinite) evidence with
  | some i => rw [hf] at h; injection h with h; exact ⟨i + 1, Or.inl h.symm⟩
  | none =>
    rw [hf] at h
    cases hg : firstIdxP (fun r => r.timestamp.isNeg) evidence with
    | some i => rw [hg] at h; injection h with h; exact ⟨i + 1, Or.inr h.symm⟩
    | none => rw [hg] at h; cases h

theorem evidencePersonNames_error_shape (submission : List SubmissionRow)
    (evidence : List EvidenceRow) (e : ValidationError)
    (h : evidencePersonNames submission evidence = .error e) :
    ∃ n, e = .duplicatePersonName n ∨ e = .extraPersonName n ∨
      e = .missingPersonName n := by
  unfold evidencePersonNames at h
  cases hd : firstDuplicate (evidence.map (·.person_name)) with
  | some n => rw [hd] at h; injection h with h; exact ⟨n, Or.inl h.symm⟩
  | none =>
    rw [hd] at h
    cases he : (evidence.map (·.person_name)).find?
        (fun n => !decide (n ∈ submission.map (·.person_name))) with
    | some n =>
      rw [he] at h; injection h with h; exact ⟨n, Or.inr (Or.inl h.symm)⟩
    | none =>
      rw [he] at h
      cases hm : (submission.map (·.person_name)).find?
          (fun n => !decide (n ∈ evidence.map (·.person_name))) with
      | some n =>
        rw [hm] at h; injection h with h; exact ⟨n, Or.inr (Or.inr h.symm)⟩
      | none => rw [hm] at h; cases h

theorem firstViolation_mem {l : List (Except ValidationError Unit)}
    {e : ValidationError} (h : firstViolation l = some e) :
    Except.error e ∈ l := by
  induction l with
  | nil => cases h
  | cons c rest ih =>
    cases c with
    | ok u => exact List.mem_cons_of_mem _ (ih h)
    | error e0 =>
      simp only [firstViolation] at h
      injection h with h
      subst h
      exact List.mem_cons_self _ _

theorem specSeq_error_shape (v : Validation) (submission : List SubmissionRow)
    (evidence : Option (List EvidenceRow)) (e : ValidationError)
    (h : Except.error e ∈ specCheckSequence v submission evidence) :
    submissionPersonNames submission = .error e ∨
    (∃ shots, v.shots_ = some shots ∧
      submissionShots shots submission = .error e) ∨
    submissionConfidence submission = .error e ∨
    (∃ vids ev, v.videos_ = some vids ∧ evidence = some ev ∧
      evidenceVideos vids ev = .error e) ∨
    (∃ ev, evidence = some ev ∧ evidenceTimestamps ev = .error e) ∨
    (∃ ev, evidence = some ev ∧ evidencePersonNames submission ev = .error e) ∨
    (∃ ev, evidence = some ev ∧ evidenceModalities ev = .error e) := by
  cases hs : v.shots_ with
  | none =>
    cases hev : evidence with
    | none =>
      simp only [specCheckSequence, hs, hev, List.nil_append, List.append_nil,
        List.singleton_append, List.mem_cons, List.mem_singleton,
        List.not_mem_nil, or_false] at h
      rcases h with h | h
      · exact Or.inl h.symm
      · exact Or.inr (Or.inr (Or.inl h.symm))
    | some evd =>
      cases hv : v.videos_ with
      | none =>
        simp only [specCheckSequence, hs, hev, hv, List.nil_append,
          List.append_nil, List.singleton_append, List.cons_append,
          List.mem_cons, List.mem_singleton, List.not_mem_nil, or_false] at h
        rcases h with h | h | h | h | h
        · exact Or.inl h.symm
        · exact Or.inr (Or.inr (Or.inl h.symm))
        · exact Or.inr (Or.inr (Or.inr (Or.inr (Or.inl ⟨evd, rfl, h.symm⟩))))
        · exact Or.inr (Or.inr (Or.inr (Or.inr (Or.inr
            (Or.inl ⟨evd, rfl, h.symm⟩)))))
        · exact Or.inr (Or.inr (Or.inr (Or.inr (Or.inr
            (Or.inr ⟨evd, rfl, h.symm⟩)))))
      | some vids =>
        simp only [specCheckSequence, hs, hev, hv, List.nil_append,
          List.append_nil, List.singleton_append, List.cons_append,
          List.mem_cons, List.mem_singleton, List.not_mem_nil, or_false] at h
        rcases h with h | h | h | h | h | h
        · exact Or.inl h.symm
        · exact Or.inr (Or.inr (Or.inl h.symm))
        · exact Or.inr (Or.inr (Or.inr (Or.inl ⟨vids, evd, rfl, rfl, h.symm⟩)))
        · exact Or.inr (Or.inr (Or.inr (Or.inr (Or.inl ⟨evd, rfl, h.symm⟩))))
        · exact Or.inr (Or.inr (Or.inr (Or.inr (Or.inr
            (Or.inl ⟨evd, rfl, h.symm⟩)))))
        · exact Or.inr (Or.inr (Or.inr (Or.inr (Or.inr
            (Or.inr ⟨evd, rfl, h.symm⟩)))))
  | some shots =>
    cases hev : evidence with
    | none =>
      simp only [specCheckSequence, hs, hev, List.nil_append, List.append_nil,
        List.singleton_append, List.cons_append, List.mem_cons,
        List.mem_singleton, List.not_mem_nil, or_false] at h
      rcases h with h | h | h
      · exact Or.inl h.symm
      · exact Or.inr (Or.inl ⟨shots, rfl, h.symm⟩)
      · exact Or.inr (Or.inr (Or.inl h.symm))
    | some evd =>
      cases hv : v.videos_ with
      | none =>
        simp only [specCheckSequence, hs, hev, hv, List.nil_append,
          List.append_nil, List.singleton_append, List.cons_append,
          List.mem_cons, List.mem_singleton, List.not_mem_nil, or_false] at h
        rcases h with h | h | h | h | h | h
        · exact Or.inl h.symm
        · exact Or.inr (Or.inl ⟨shots, rfl, h.symm⟩)
        · exact Or.inr (Or.inr (Or.inl h.symm))
        · exact Or.inr (Or.inr (Or.inr (Or.inr (Or.inl ⟨evd, rfl, h.symm⟩))))
        · exact Or.inr (Or.inr (Or.inr (Or.inr (Or.inr
            (Or.inl ⟨evd, rfl, h.symm⟩)))))
        · exact Or.inr (Or.inr (Or.inr (Or.inr (Or.inr
            (Or.inr ⟨evd, rfl, h.symm⟩)))))
      | some vids =>
        simp only [specCheckSequence, hs, hev, hv, List.nil_append,
          List.append_nil, List.singleton_append, List.cons_append,
          List.mem_cons, List.mem_singleton, List.not_mem_nil, or_false] at h
        rcases h with h | h | h | h | h | h | h
        · exact Or.inl h.symm
        · exact Or.inr (Or.inl ⟨shots, rfl, h.symm⟩)
        · exact Or.inr (Or.inr (Or.inl h.symm))
        · exact Or.inr (Or.inr (Or.inr (Or.inl ⟨vids, evd, rfl, rfl, h.symm⟩)))
        · exact Or.inr (Or.inr (Or.inr (Or.inr (Or.inl ⟨evd, rfl, h.symm⟩))))
        · exact Or.inr (Or.inr (Or.inr (Or.inr (Or.inr
            (Or.inl ⟨evd, rfl, h.symm⟩)))))
        · exact Or.inr (Or.inr (Or.inr (Or.inr (Or.inr
            (Or.inr ⟨evd, rfl, h.symm⟩)))))

/-! Claim theorems. -/

/-- C1: for every engine configuration, submission dataset, and optional
evidence dataset, `validate` returns `True` exactly when every applicable
check (person-name alphabet, shot membership when configured, confidence
finiteness; then for supplied evidence: video membership when configured,
timestamps, person-name cross-check, modality) passes; otherwise it raises
the error of the first violated check in that fixed order, with no
aggregation of later violations, and it never returns any other value. -/
theorem validate_fixed_order_fail_fast (v : Validation)
    (submission : List SubmissionRow) (evidence : Option (List EvidenceRow)) :
    (v.validate submission evidence = .ok true ↔
      ∀ c ∈ specCheckSequence v submission evidence, c = .ok ()) ∧
    (∀ e, v.validate submission evidence = .error e ↔
      firstViolation (specCheckSequence v submission evidence) = some e) ∧
    v.validate submission evidence ≠ .ok false := by
  refine ⟨?_, fun e => ?_, ?_⟩
  · rw [validate_eq_specRun, specRun_ok_iff]
    simp
  · rw [validate_eq_specRun, specRun_error_iff]
  · rw [validate_eq_specRun]
    intro hc
    exact absurd ((specRun_ok_iff _ false).1 hc).1 Bool.false_ne_true

/-- Witness for C1: a well-formed submission with no evidence and no
reference restrictions validates successfully. -/
theorem validate_fixed_order_fail_fast_witness :
    (Validation.mk none none).validate
        [⟨"c", "v", "s", "alice", .finite 1⟩] none = .ok true :=
  (validate_fixed_order_fail_fast (Validation.mk none none)
      [⟨"c", "v", "s", "alice", .finite 1⟩] none).1.mpr (by decide)

/-- C2: a submission whose person names all use only lowercase ASCII letters
and underscore passes the person-name alphabet check; a submission containing
a person name with a character outside that alphabet makes `validate` raise
an invalid-person-name error identifying one violating name occurring in the
submission. -/
theorem person_name_alphabet_check (v : Validation)
    (submission : List SubmissionRow) (evidence : Option (List EvidenceRow)) :
    ((∀ r ∈ submission, allowedName r.person_name = true) →
      submissionPersonNames submission = .ok ()) ∧
    ((∃ r ∈ submission, allowedName r.person_name = false) →
      ∃ n, v.validate submission evidence = .error (.invalidPersonName n) ∧
        allowedName n = false ∧ ∃ r ∈ submission, r.person_name = n) := by
  constructor
  · exact fun h => (submissionPersonNames_ok_iff submission).2 h
  · intro h
    obtain ⟨n, hpn, hbad, hr⟩ := submissionPersonNames_error_of submission h
    refine ⟨n, ?_, hbad, hr⟩
    simp [Validation.validate, hpn]

/-- Witness for C2: the name `Jean-Paul` is reported as invalid. -/
theorem person_name_alphabet_check_witness :
    (∃ r ∈ [(⟨"c", "v", "s", "Jean-Paul", .finite 1⟩ : SubmissionRow)],
      allowedName r.person_name = false) ∧
    ∃ n, (Validation.mk none none).validate
        [⟨"c", "v", "s", "Jean-Paul", .finite 1⟩] none
      = .error (.invalidPersonName n) ∧
      allowedName n = false ∧
      ∃ r ∈ [(⟨"c", "v", "s", "Jean-Paul", .finite 1⟩ : SubmissionRow)],
        r.person_name = n :=
  ⟨by decide, (person_name_alphabet_check (Validation.mk none none)
      [⟨"c", "v", "s", "Jean-Paul", .finite 1⟩] none).2 (by decide)⟩

/-- C3: with a reference shot set configured, the shot membership check
passes exactly when every referenced (corpus, video, shot) triple belongs to
the set, and on failure it reports one referenced triple absent from the
set. -/
theorem shot_membership_check (shots_ : List (String × String × String))
    (submission : List SubmissionRow) :
    (submissionShots shots_ submission = .ok () ↔
      ∀ r ∈ submission, tripleOf r ∈ shots_) ∧
    (∀ e, submissionShots shots_ submission = .error e →
      ∃ c v s, e = .invalidShot c v s ∧
        (c, v, s) ∈ submission.map tripleOf ∧ (c, v, s) ∉ shots_) :=
  ⟨submissionShots_ok_iff shots_ submission,
   fun e h => submissionShots_error shots_ submission e h⟩

/-- Witness for C3 on the spec's example shot set. -/
theorem shot_membership_check_witness :
    (∃ c v s, (ValidationError.invalidShot "C1" "V1" "S2")
        = .invalidShot c v s ∧
      (c, v, s) ∈
        [(⟨"C1", "V1", "S2", "alice", .finite 1⟩ : SubmissionRow)].map tripleOf ∧
      (c, v, s) ∉ [("C1", "V1", "S1")]) ∧
    submissionShots [("C1", "V1", "S1")]
      [⟨"C1", "V1", "S1", "alice", .finite 1⟩] = .ok () := by
  constructor
  · exact (shot_membership_check [("C1", "V1", "S1")]
      [⟨"C1", "V1", "S2", "alice", .finite 1⟩]).2
      (ValidationError.invalidShot "C1" "V1" "S2") (by decide)
  · exact (shot_membership_check [("C1", "V1", "S1")]
      [⟨"C1", "V1", "S1", "alice", .finite 1⟩]).1.mpr (by decide)

/-- C4: the confidence check passes exactly when every row's confidence is
finite, and when row `i` (0-based) is the first row in file order with a
non-finite confidence the check fails reporting the 1-indexed line
`i + 1`. -/
theorem confidence_finiteness_check (submission : List SubmissionRow) :
    (submissionConfidence submission = .ok () ↔
      ∀ r ∈ submission, r.confidence.isFinite = true) ∧
    (∀ i r, submission.get? i = some r → r.confidence.isFinite = false →
      (∀ q ∈ submission.take i, q.confidence.isFinite = true) →
      submissionConfidence submission
        = .error (.incorrectConfidence (i + 1))) := by
  refine ⟨submissionConfidence_ok_iff submission, ?_⟩
  intro i r hi hbad hbefore
  apply submissionConfidence_error_at
  rw [firstIdxP_some_iff]
  refine ⟨⟨r, hi, by simp [hbad]⟩, ?_⟩
  intro j hj y hy
  have := hbefore y (get?_mem_take hj hy)
  simp [this]

/-- Witness for C4: a `nan` confidence at line 3 is reported as line 3. -/
theorem confidence_finiteness_check_witness :
    submissionConfidence
      [⟨"c", "v", "s1", "alice", .finite 1⟩,
       ⟨"c", "v", "s2", "alice", .finite 2⟩,
       ⟨"c", "v", "s3", "alice", .nan⟩]
      = .error (.incorrectConfidence 3) :=
  (confidence_finiteness_check
      [⟨"c", "v", "s1", "alice", .finite 1⟩,
       ⟨"c", "v", "s2", "alice", .finite 2⟩,
       ⟨"c", "v", "s3", "alice", .nan⟩]).2 2
    ⟨"c", "v", "s3", "alice", .nan⟩ (by decide) (by decide) (by decide)

/-- C5: the timestamp check passes exactly when every timestamp is finite and
not negative (zero passes); the first non-finite row in file order is
reported as non-finite, and only when all timestamps are finite is the first
negative row reported as negative. -/
theorem timestamp_check (evidence : List EvidenceRow) :
    (evidenceTimestamps evidence = .ok () ↔
      ∀ r ∈ evidence, r.timestamp.isFinite = true ∧
        r.timestamp.isNeg = false) ∧
    (∀ i r, evidence.get? i = some r → r.timestamp.isFinite = false →
      (∀ q ∈ evidence.take i, q.timestamp.isFinite = true) →
      evidenceTimestamps evidence = .error (.incorrectTimestamp (i + 1))) ∧
    ((∀ r ∈ evidence, r.timestamp.isFinite = true) →
      ∀ i r, evidence.get? i = some r → r.timestamp.isNeg = true →
      (∀ q ∈ evidence.take i, q.timestamp.isNeg = false) →
      evidenceTimestamps evidence = .error (.negativeTimestamp (i + 1))) := by
  refine ⟨evidenceTimestamps_ok_iff evidence, ?_, ?_⟩
  · intro i r hi hbad hbefore
    apply evidenceTimestamps_nonfinite_at
    rw [firstIdxP_some_iff]
    refine ⟨⟨r, hi, by simp [hbad]⟩, ?_⟩
    intro j hj y hy
    have := hbefore y (get?_mem_take hj hy)
    simp [this]
  · intro hfin i r hi hbad hbefore
    apply evidenceTimestamps_negative_at evidence i hfin
    rw [firstIdxP_some_iff]
    refine ⟨⟨r, hi, hbad⟩, ?_⟩
    intro j hj y hy
    exact hbefore y (get?_mem_take hj hy)

/-- Witness for C5: `nan` reports as non-finite, `-1` as negative, `0`
passes. -/
theorem timestamp_check_witness :
    evidenceTimestamps [⟨"alice", "c", "v", "written", .nan⟩]
        = .error (.incorrectTimestamp 1) ∧
    evidenceTimestamps [⟨"alice", "c", "v", "written", .finite (-1)⟩]
        = .error (.negativeTimestamp 1) ∧
    evidenceTimestamps [⟨"alice", "c", "v", "written", .finite 0⟩]
        = .ok () := by
  refine ⟨?_, ?_, ?_⟩
  · exact (timestamp_check [⟨"alice", "c", "v", "written", .nan⟩]).2.1 0
      ⟨"alice", "c", "v", "written", .nan⟩ (by decide) (by decide) (by decide)
  · exact (timestamp_check [⟨"alice", "c", "v", "written", .finite (-1)⟩]).2.2
      (by decide) 0 ⟨"alice", "c", "v", "written", .finite (-1)⟩
      (by decide) (by decide) (by decide)
  · exact (timestamp_check [⟨"alice", "c", "v", "written", .finite 0⟩]).1.mpr
      (by decide)

/-- C6: the person-name cross-check passes exactly when the evidence names
are pairwise distinct and the set of evidence names equals the set of
submission names; its sub-checks run in order: a duplicated evidence name is
reported first, otherwise an evidence name absent from the submission,
otherwise a submission name absent from the evidence. -/
theorem person_name_cross_check (submission : List SubmissionRow)
    (evidence : List EvidenceRow) :
    (evidencePersonNames submission evidence = .ok () ↔
      (evidence.map (·.person_name)).Nodup ∧
      ∀ n, n ∈ evidence.map (·.person_name) ↔
        n ∈ submission.map (·.person_name)) ∧
    (¬ (evidence.map (·.person_name)).Nodup →
      ∃ n, evidencePersonNames submission evidence
          = .error (.duplicatePersonName n) ∧
        2 ≤ (evidence.map (·.person_name)).count n) ∧
    ((evidence.map (·.person_name)).Nodup →
      (∃ n ∈ evidence.map (·.person_name),
        n ∉ submission.map (·.person_name)) →
      ∃ n, evidencePersonNames submission evidence
          = .error (.extraPersonName n) ∧
        n ∈ evidence.map (·.person_name) ∧
        n ∉ submission.map (·.person_name)) ∧
    ((evidence.map (·.person_name)).Nodup →
      (∀ n ∈ evidence.map (·.person_name),
        n ∈ submission.map (·.person_name)) →
      (∃ n ∈ submission.map (·.person_name),
        n ∉ evidence.map (·.person_name)) →
      ∃ n, evidencePersonNames submission evidence
          = .error (.missingPersonName n) ∧
        n ∈ submission.map (·.person_name) ∧
        n ∉ evidence.map (·.person_name)) :=
  ⟨evidencePersonNames_ok_iff submission evidence,
   evidencePersonNames_dup_of submission evidence,
   evidencePersonNames_extra_of submission evidence,
   evidencePersonNames_missing_of submission evidence⟩

/-- Witness for C6 on the spec's examples: matching names pass; a missing
`bob`, an extra `carol`, and a duplicated `alice` are each reported. -/
theorem person_name_cross_check_witness :
    evidencePersonNames
        [⟨"c", "v", "s1", "alice", .finite 1⟩,
         ⟨"c", "v", "s2", "bob", .finite 1⟩]
        [⟨"alice", "c", "v", "written", .finite 1⟩,
         ⟨"bob", "c", "v", "pronounced", .finite 2⟩] = .ok () ∧
    (∃ n, evidencePersonNames
        [⟨"c", "v", "s1", "alice", .finite 1⟩,
         ⟨"c", "v", "s2", "bob", .finite 1⟩]
        [⟨"alice", "c", "v", "written", .finite 1⟩]
        = .error (.missingPersonName n) ∧
      n ∈ [(⟨"c", "v", "s1", "alice", .finite 1⟩ : SubmissionRow),
           ⟨"c", "v", "s2", "bob", .finite 1⟩].map (·.person_name) ∧
      n ∉ [(⟨"alice", "c", "v", "written", .finite 1⟩ :
        EvidenceRow)].map (·.person_name)) ∧
    (∃ n, evidencePersonNames
        [⟨"c", "v", "s1", "alice", .finite 1⟩,
         ⟨"c", "v", "s2", "bob", .finite 1⟩]
        [⟨"alice", "c", "v", "written", .finite 1⟩,
         ⟨"bob", "c", "v", "written", .finite 1⟩,
         ⟨"carol", "c", "v", "written", .finite 1⟩]
        = .error (.extraPersonName n) ∧
      n ∈ [(⟨"alice", "c", "v", "written", .finite 1⟩ : EvidenceRow),
           ⟨"bob", "c", "v", "written", .finite 1⟩,
           ⟨"carol", "c", "v", "written", .finite 1⟩].map (·.person_name) ∧
      n ∉ [(⟨"c", "v", "s1", "alice", .finite 1⟩ : SubmissionRow),
           ⟨"c", "v", "s2", "bob", .finite 1⟩].map (·.person_name)) ∧
    (∃ n, evidencePersonNames
        [⟨"c", "v", "s1", "alice", .finite 1⟩]
        [⟨"alice", "c", "v", "written", .finite 1⟩,
         ⟨"alice", "c", "v", "pronounced", .finite 2⟩]
        = .error (.duplicatePersonName n) ∧
      2 ≤ ([(⟨"alice", "c", "v", "written", .finite 1⟩ : EvidenceRow),
            ⟨"alice", "c", "v", "pronounced", .finite 2⟩].map
        (·.person_name)).count n) := by
  refine ⟨by decide, ?_, ?_, ?_⟩
  · exact (person_name_cross_check
      [⟨"c", "v", "s1", "alice", .finite 1⟩,
       ⟨"c", "v", "s2", "bob", .finite 1⟩]
      [⟨"alice", "c", "v", "written", .finite 1⟩]).2.2.2
      (by decide) (by decide) (by decide)
  · exact (person_name_cross_check
      [⟨"c", "v", "s1", "alice", .finite 1⟩,
       ⟨"c", "v", "s2", "bob", .finite 1⟩]
      [⟨"alice", "c", "v", "written", .finite 1⟩,
       ⟨"bob", "c", "v", "written", .finite 1⟩,
       ⟨"carol", "c", "v", "written", .finite 1⟩]).2.2.1
      (by decide) (by decide)
  · exact (person_name_cross_check
      [⟨"c", "v", "s1", "alice", .finite 1⟩]
      [⟨"alice", "c", "v", "written", .finite 1⟩,
       ⟨"alice", "c", "v", "pronounced", .finite 2⟩]).2.1 (by decide)

/-- C7: the modality check passes exactly when every modality value is one of
the two allowed literals, and on failure it reports one modality value
outside that set. -/
theorem modality_check (evidence : List EvidenceRow) :
    (evidenceModalities evidence = .ok () ↔
      ∀ r ∈ evidence, r.modality = "written" ∨ r.modality = "pronounced") ∧
    (∀ e, evidenceModalities evidence = .error e →
      ∃ m, e = .incorrectModality m ∧ (∃ r ∈ evidence, r.modality = m) ∧
        m ≠ "written" ∧ m ≠ "pronounced") :=
  ⟨evidenceModalities_ok_iff evidence,
   fun e h => evidenceModalities_error evidence e h⟩

/-- Witness for C7: written and pronounced pass; `spoken` is reported. -/
theorem modality_check_witness :
    evidenceModalities
      [⟨"alice", "c", "v", "written", .finite 1⟩,
       ⟨"bob", "c", "v", "pronounced", .finite 1⟩] = .ok () ∧
    ∃ m, (ValidationError.incorrectModality "spoken")
        = .incorrectModality m ∧
      (∃ r ∈ [(⟨"alice", "c", "v", "written", .finite 1⟩ : EvidenceRow),
              ⟨"bob", "c", "v", "spoken", .finite 1⟩], r.modality = m) ∧
      m ≠ "written" ∧ m ≠ "pronounced" := by
  constructor
  · exact (modality_check
      [⟨"alice", "c", "v", "written", .finite 1⟩,
       ⟨"bob", "c", "v", "pronounced", .finite 1⟩]).1.mpr (by decide)
  · exact (modality_check
      [⟨"alice", "c", "v", "written", .finite 1⟩,
       ⟨"bob", "c", "v", "spoken", .finite 1⟩]).2
      (.incorrectModality "spoken") (by decide)

/-- C8 (amended): without a shot list the shot membership check is never
executed, so `validate` never raises an invalid-shot error; without a video
list it never raises an invalid-video error; when a reference video set
exists, the video membership check (run by `validate` on supplied evidence)
fails exactly when some (corpus, video) pair of the evidence is absent from
the set, and on failure it reports one such absent pair. -/
theorem video_membership_and_skipping (v : Validation)
    (submission : List SubmissionRow) (evidence : Option (List EvidenceRow)) :
    (v.shots_ = none → ∀ c vid s,
      v.validate submission evidence ≠ .error (.invalidShot c vid s)) ∧
    (v.videos_ = none → ∀ c vid,
      v.validate submission evidence ≠ .error (.invalidVideo c vid)) ∧
    (∀ videos_ ev, evidenceVideos videos_ ev = .ok () ↔
      ∀ r ∈ ev, pairOf r ∈ videos_) ∧
    (∀ videos_ ev e, evidenceVideos videos_ ev = .error e →
      ∃ c vid, e = .invalidVideo c vid ∧
        (c, vid) ∈ ev.map pairOf ∧ (c, vid) ∉ videos_) := by
  refine ⟨?_, ?_, fun videos_ ev => evidenceVideos_ok_iff videos_ ev,
    fun videos_ ev e h => evidenceVideos_error videos_ ev e h⟩
  · intro hs c vid s hcontra
    rw [validate_eq_specRun, specRun_error_iff] at hcontra
    have hmem := firstViolation_mem hcontra
    rcases specSeq_error_shape v submission evidence _ hmem with
      h | ⟨shots, hsh, _⟩ | h | ⟨vids, ev, _, _, h⟩ | ⟨ev, _, h⟩ |
      ⟨ev, _, h⟩ | ⟨ev, _, h⟩
    · obtain ⟨n, hn, _⟩ := submissionPersonNames_error submission _ h
      exact ValidationError.noConfusion hn
    · rw [hs] at hsh
      exact Option.noConfusion hsh
    · obtain ⟨i, hi⟩ := submissionConfidence_error_shape submission _ h
      exact ValidationError.noConfusion hi
    · obtain ⟨c2, v2, he, _⟩ := evidenceVideos_error vids ev _ h
      exact ValidationError.noConfusion he
    · obtain ⟨i, hi | hi⟩ := evidenceTimestamps_error_shape ev _ h
      · exact ValidationError.noConfusion hi
      · exact ValidationError.noConfusion hi
    · obtain ⟨n, hn | hn | hn⟩ :=
        evidencePersonNames_error_shape submission ev _ h
      · exact ValidationError.noConfusion hn
      · exact ValidationError.noConfusion hn
      · exact ValidationError.noConfusion hn
    · obtain ⟨m, hm, _⟩ := evidenceModalities_error ev _ h
      exact ValidationError.noConfusion hm
  · intro hv c vid hcontra
    rw [validate_eq_specRun, specRun_error_iff] at hcontra
    have hmem := firstViolation_mem hcontra
    rcases specSeq_error_shape v submission evidence _ hmem with
      h | ⟨shots, hsh, h⟩ | h | ⟨vids, ev, hvv, _, h⟩ | ⟨ev, _, h⟩ |
      ⟨ev, _, h⟩ | ⟨ev, _, h⟩
    · obtain ⟨n, hn, _⟩ := submissionPersonNames_error submission _ h
      exact ValidationError.noConfusion hn
    · obtain ⟨c2, v2, s2, he, _⟩ := submissionShots_error shots submission _ h
      exact ValidationError.noConfusion he
    · obtain ⟨i, hi⟩ := submissionConfidence_error_shape submission _ h
      exact ValidationError.noConfusion hi
    · rw [hv] at hvv
      exact Option.noConfusion hvv
    · obtain ⟨i, hi | hi⟩ := evidenceTimestamps_error_shape ev _ h
      · exact ValidationError.noConfusion hi
      · exact ValidationError.noConfusion hi
    · obtain ⟨n, hn | hn | hn⟩ :=
        evidencePersonNames_error_shape submission ev _ h
      · exact ValidationError.noConfusion hn
      · exact ValidationError.noConfusion hn
      · exact ValidationError.noConfusion hn
    · obtain ⟨m, hm, _⟩ := evidenceModalities_error ev _ h
      exact ValidationError.noConfusion hm

/-- Witness for C8 at concrete inputs: no invalid-shot error without a shot
list, and a pair absent from the video set is reported. -/
theorem video_membership_and_skipping_witness :
    (Validation.mk none none).validate [] none
        ≠ .error (.invalidShot "a" "b" "c") ∧
    (∃ c vid, (ValidationError.invalidVideo "x" "y") = .invalidVideo c vid ∧
      (c, vid) ∈ [(⟨"alice", "x", "y", "written", .finite 1⟩ :
        EvidenceRow)].map pairOf ∧
      (c, vid) ∉ [("c", "v")]) := by
  constructor
  · exact (video_membership_and_skipping (Validation.mk none none) [] none).1
      rfl "a" "b" "c"
  · exact (video_membership_and_skipping (Validation.mk none none) []
      none).2.2.2 [("c", "v")] [⟨"alice", "x", "y", "written", .finite 1⟩]
      (.invalidVideo "x" "y") (by decide)

/-- C8 counterexample: with a reference video set configured and evidence
supplied, `validate` can fail although every (corpus, video) pair of the
evidence is a member of the reference video set — the failure comes from an
earlier check, so "validate fails iff some pair is absent" is false as
stated. -/
theorem video_membership_claim_counterexample :
    (Validation.mk none (some [("c", "v")])).validate
        [⟨"c", "v", "s", "Bad", .finite 1⟩]
        (some [⟨"bad", "c", "v", "written", .finite 1⟩])
      = .error (.invalidPersonName "Bad") ∧
    ∀ r ∈ [(⟨"bad", "c", "v", "written", .finite 1⟩ : EvidenceRow)],
      pairOf r ∈ [("c", "v")] := by
  constructor
  · decide
  · decide

/-- C9: the reference sets fixed at construction are read-only: threading the
engine state through any sequence of validate calls returns it unchanged, and
every call's outcome is the pure function of the engine and that call's
inputs, so repeated validations of the same inputs agree. -/
theorem reference_sets_immutable (v : Validation)
    (calls : List (List SubmissionRow × Option (List EvidenceRow))) :
    (runCalls v calls).2 = v ∧
    (runCalls v calls).1 = calls.map fun ce => v.validate ce.1 ce.2 := by
  induction calls with
  | nil => exact ⟨rfl, rfl⟩
  | cons ce rest ih =>
    obtain ⟨s, e⟩ := ce
    constructor
    · simp [runCalls, Validation.callS, ih.1]
    · simp [runCalls, Validation.callS, ih.1, ih.2]

/-- C10: the empty person name has an empty character set, vacuously inside
the allowed alphabet, so it passes the person-name alphabet check and is
never the reported violating name. -/
theorem empty_person_name_passes (submission : List SubmissionRow) :
    allowedName "" = true ∧
    (∀ n, submissionPersonNames submission = .error (.invalidPersonName n) →
      n ≠ "") ∧
    submissionPersonNames [⟨"c", "v", "s", "", .finite 1⟩] = .ok () := by
  refine ⟨rfl, ?_, by decide⟩
  intro n h hn
  obtain ⟨m, hm, hbad, _⟩ := submissionPersonNames_error submission _ h
  injection hm with hm
  rw [← hm] at hbad
  rw [hn] at hbad
  exact absurd hbad (by decide)

/-- Witness for C10: a reported invalid name is never the empty string. -/
theorem empty_person_name_passes_witness :
    submissionPersonNames [(⟨"c", "v", "s", "A", .finite 1⟩ : SubmissionRow)]
      = .error (.invalidPersonName "A") ∧ "A" ≠ "" := by
  constructor
  · decide
  · exact (empty_person_name_passes
      [(⟨"c", "v", "s", "A", .finite 1⟩ : SubmissionRow)]).2.1 "A" (by decide)

end EvaluationPackage
